import Mathlib

/-
Verification of the content-collection subsystem of the astro repository slice:
the incremental collection tracker (vite-plugin-content-virtual-mod.ts:
handleEvent, runEvents, addCollection, removeCollection, setEntry, removeEntry,
writeContentFiles) and the build-time asset propagation plugin
(vite-plugin-content-assets.ts: astroConfigBuildPlugin).

The TypeScript is shallowly embedded: JS Records become association lists with
the corresponding access/assignment/delete operations, JS strings become Lean
strings with character-list primitives mirroring the JS string methods used by
the source (split, includes, one-shot replace, JSON.stringify of strings), and
the external collaborators that live outside this repository slice (utils.js,
core/path.js, the config loader, the frontmatter extractor, the module graph
walker) are either parameters of the embedding or definitions modelled from
the specification, each marked as such.
-/

namespace Astro

/-- Lexicographic comparison of character lists, modelling the default JS
string comparison used by `Array.prototype.sort()` (code-unit order; our
strings of interest are ASCII, where code-unit and code-point order agree). -/
def lexLe : List Char → List Char → Bool
  | [], _ => true
  | _ :: _, [] => false
  | a :: as, b :: bs => if a < b then true else if b < a then false else lexLe as bs

/-- The JS string order as a relation on Lean strings. -/
abbrev jsLe (a b : String) : Prop := lexLe a.data b.data = true

instance : DecidableRel jsLe := fun a b => inferInstanceAs (Decidable (_ = true))

theorem lexLe_total : ∀ as bs : List Char, lexLe as bs = true ∨ lexLe bs as = true := by
  intro as
  induction as with
  | nil => intro bs; left; rfl
  | cons a as ih =>
    intro bs
    cases bs with
    | nil => right; rfl
    | cons b bs =>
      rcases lt_trichotomy a b with h | h | h
      · left; simp [lexLe, h]
      · subst h
        rcases ih bs with h2 | h2
        · left; simp [lexLe, lt_irrefl, h2]
        · right; simp [lexLe, lt_irrefl, h2]
      · right; simp [lexLe, h]

theorem lexLe_trans : ∀ as bs cs : List Char,
    lexLe as bs = true → lexLe bs cs = true → lexLe as cs = true := by
  intro as
  induction as with
  | nil => intro bs cs _ _; rfl
  | cons a as ih =>
    intro bs cs h1 h2
    cases bs with
    | nil => simp [lexLe] at h1
    | cons b bs =>
      cases cs with
      | nil => simp [lexLe] at h2
      | cons c cs =>
        simp only [lexLe] at h1 h2 ⊢
        by_cases hab : a < b
        · by_cases hbc : b < c
          · simp [lt_trans hab hbc]
          · by_cases hcb : c < b
            · simp [hbc, hcb] at h2
            · have : b = c := le_antisymm (not_lt.mp hcb) (not_lt.mp hbc)
              subst this
              simp [hab]
        · by_cases hba : b < a
          · simp [hab, hba] at h1
          · have : a = b := le_antisymm (not_lt.mp hba) (not_lt.mp hab)
            subst this
            by_cases hbc : a < c
            · simp [hbc]
            · by_cases hcb : c < a
              · simp [hbc, hcb] at h2
              · simp [hab, hba] at h1
                simp [hbc, hcb] at h2
                simp [hbc, hcb, ih bs cs h1 h2]

theorem lexLe_antisymm : ∀ as bs : List Char,
    lexLe as bs = true → lexLe bs as = true → as = bs := by
  intro as
  induction as with
  | nil =>
    intro bs _ h2
    cases bs with
    | nil => rfl
    | cons b bs => simp [lexLe] at h2
  | cons a as ih =>
    intro bs h1 h2
    cases bs with
    | nil => simp [lexLe] at h1
    | cons b bs =>
      simp only [lexLe] at h1 h2
      by_cases hab : a < b
      · simp [hab, asymm hab] at h2
      · by_cases hba : b < a
        · simp [hab, hba] at h1
        · have : a = b := le_antisymm (not_lt.mp hba) (not_lt.mp hab)
          subst this
          simp [hab, hba] at h1 h2
          simp [ih bs h1 h2]

instance : IsTotal String jsLe := ⟨fun a b => lexLe_total a.data b.data⟩

instance : IsTrans String jsLe := ⟨fun a b c => lexLe_trans a.data b.data c.data⟩

instance : IsAntisymm String jsLe :=
  ⟨fun a b h1 h2 => by
    cases a with
    | mk as =>
      cases b with
      | mk bs => exact congrArg String.mk (lexLe_antisymm as bs h1 h2)⟩

/-- Splitting a character list at a separator, modelling `String.prototype.split`. -/
def splitSegsAux (sep : Char) : List Char → List Char → List (List Char)
  | acc, [] => [acc.reverse]
  | acc, c :: rest =>
    if c = sep then acc.reverse :: splitSegsAux sep [] rest
    else splitSegsAux sep (c :: acc) rest

/-- JS `s.split(sep)` for a one-character separator. -/
def splitOnChar (sep : Char) (s : String) : List String :=
  (splitSegsAux sep [] s.data).map String.mk

/-- Whether the first list is a prefix of the second. -/
def isPrefixOfL : List Char → List Char → Bool
  | [], _ => true
  | _ :: _, [] => false
  | a :: as, b :: bs => a = b && isPrefixOfL as bs

/-- Index of the first occurrence of `pat` in a character list, if any. -/
def firstOccL (pat : List Char) : List Char → Option Nat
  | [] => if pat.isEmpty then some 0 else none
  | c :: rest =>
    if isPrefixOfL pat (c :: rest) then some 0
    else (firstOccL pat rest).map (· + 1)

/-- One-shot replacement of the first occurrence of `pat` by `rep`, modelling
JS `String.prototype.replace` with a string pattern (which replaces only the
first occurrence, and returns the string unchanged when the pattern is absent). -/
def replaceFirstL (pat rep : List Char) : List Char → List Char
  | [] => []
  | c :: rest =>
    if isPrefixOfL pat (c :: rest) then rep ++ (c :: rest).drop pat.length
    else c :: replaceFirstL pat rep rest

/-- JS `s.replace(pat, rep)` on Lean strings. -/
def replaceFirst (s pat rep : String) : String :=
  String.mk (replaceFirstL pat.data rep.data s.data)

/-- JS `s.includes(pat)` on Lean strings. -/
def containsTok (s pat : String) : Bool :=
  (firstOccL pat.data s.data).isSome

theorem replaceFirstL_of_firstOcc (pat rep : List Char) (hpat : pat ≠ []) :
    ∀ (s : List Char) (i : Nat), firstOccL pat s = some i →
      replaceFirstL pat rep s = s.take i ++ rep ++ s.drop (i + pat.length) := by
  intro s
  induction s with
  | nil =>
    intro i h
    simp [firstOccL, List.isEmpty_iff, hpat] at h
  | cons c rest ih =>
    intro i h
    by_cases hp : isPrefixOfL pat (c :: rest) = true
    · simp [firstOccL, hp] at h
      subst h
      simp [replaceFirstL, hp]
    · simp [firstOccL, hp] at h
      rcases h with ⟨j, hj, rfl⟩
      have := ih j hj
      simp [replaceFirstL, hp, this]
      have harith : j + 1 + pat.length = j + pat.length + 1 := by omega
      simp [harith]

theorem replaceFirstL_of_not_found (pat rep : List Char) :
    ∀ s : List Char, firstOccL pat s = none → replaceFirstL pat rep s = s := by
  intro s
  induction s with
  | nil => intro _; rfl
  | cons c rest ih =>
    intro h
    by_cases hp : isPrefixOfL pat (c :: rest) = true
    · simp [firstOccL, hp] at h
    · simp [firstOccL, hp] at h
      simp [replaceFirstL, hp, ih h]

/-- Lowercase hexadecimal digit, as used by JSON.stringify unicode escapes. -/
def hexDigit (n : Nat) : Char :=
  if n < 10 then Char.ofNat (48 + n) else Char.ofNat (87 + n)

/-- Modelled from the spec: the escaping JSON.stringify applies to one
character of a string value (JSON.stringify is a JS builtin, external to the
repository slice; this follows the JSON string grammar it emits). -/
def jsonEscapeChar (c : Char) : String :=
  if c = '"' then "\\\""
  else if c = '\\' then "\\\\"
  else if c = '\n' then "\\n"
  else if c = '\t' then "\\t"
  else if c = '\r' then "\\r"
  else if c = Char.ofNat 8 then "\\b"
  else if c = Char.ofNat 12 then "\\f"
  else if c.toNat < 32 then
    "\\u00" ++ String.mk [hexDigit (c.toNat / 16), hexDigit (c.toNat % 16)]
  else String.singleton c

/-- Modelled from the spec: JSON.stringify applied to a string value. -/
def jsonStringify (s : String) : String :=
  "\"" ++ String.join (s.data.map jsonEscapeChar) ++ "\""

/-- Numeric value of a hexadecimal digit character. -/
def hexVal (c : Char) : Nat :=
  if c.toNat ≥ 97 then c.toNat - 87
  else if c.toNat ≥ 65 then c.toNat - 55
  else c.toNat - 48

/-- Modelled from the spec: the unescaping JSON.parse applies to the body of a
JSON string literal (left inverse of the escaping above on its range). -/
def jsonUnescapeChars : List Char → List Char
  | [] => []
  | '\\' :: 'u' :: h1 :: h2 :: h3 :: h4 :: rest =>
    Char.ofNat (((hexVal h1 * 16 + hexVal h2) * 16 + hexVal h3) * 16 + hexVal h4)
      :: jsonUnescapeChars rest
  | '\\' :: 'n' :: rest => '\n' :: jsonUnescapeChars rest
  | '\\' :: 't' :: rest => '\t' :: jsonUnescapeChars rest
  | '\\' :: 'r' :: rest => '\r' :: jsonUnescapeChars rest
  | '\\' :: 'b' :: rest => Char.ofNat 8 :: jsonUnescapeChars rest
  | '\\' :: 'f' :: rest => Char.ofNat 12 :: jsonUnescapeChars rest
  | '\\' :: c :: rest => c :: jsonUnescapeChars rest
  | c :: rest => c :: jsonUnescapeChars rest

/-- Modelled from the spec: JSON.parse applied to a JSON string literal. -/
def jsonParseString (s : String) : String :=
  String.mk (jsonUnescapeChars ((s.data.drop 1).dropLast))

/-- Modelled from the spec: Node `path.extname` of the final path segment
(core path helpers are external to the repository slice). -/
def extname (p : String) : String :=
  let base := (splitOnChar '/' p).getLastD ""
  let parts := splitOnChar '.' base
  if parts.length ≤ 1 then ""
  else if parts.headD "" = "" then
    (if parts.length = 2 then "" else "." ++ parts.getLastD "")
  else "." ++ parts.getLastD ""

/-- Lookup in a JS Record embedded as an association list
(`record[key]`, `undefined` becoming `none`). -/
def lookupA {α : Type} : List (String × α) → String → Option α
  | [], _ => none
  | (k, v) :: rest, key => if k = key then some v else lookupA rest key

/-- JS `key in record`. -/
def hasKeyA {α : Type} (m : List (String × α)) (key : String) : Bool :=
  (lookupA m key).isSome

/-- JS assignment `record[key] = v`: replaces the binding in place when the
key is present, appends it otherwise (JS Records preserve insertion order). -/
def setA {α : Type} : List (String × α) → String → α → List (String × α)
  | [], key, v => [(key, v)]
  | (k, w) :: rest, key, v =>
    if k = key then (k, v) :: rest else (k, w) :: setA rest key v

/-- JS `delete record[key]`. -/
def removeA {α : Type} (m : List (String × α)) (key : String) : List (String × α) :=
  m.filter (fun p => p.1 != key)

/-- Entry metadata stored in the Collection Map
(`type ContentEntryMetadata / DataEntryMetadata` in the source). -/
inductive EntryMetadata where
  | content (slug : String)
  | data
  deriving DecidableEq

/-- One collection: entry key (JSON-stringified id) to metadata. -/
abbrev EntryMap := List (String × EntryMetadata)

/-- The Collection Map (`type CollectionTypes` in the source): collection key
(JSON-stringified collection name) to entry record. -/
abbrev CollectionTypes := List (String × EntryMap)

/-- Per-collection content config: only schema presence is observable to the
manifest writer (`collectionConfig?.schema`). -/
structure CollectionConfig where
  hasSchema : Bool
  deriving DecidableEq

/-- The loaded content config (`ContentConfig` from utils.js): a record of
collection configs, keyed by raw collection name. -/
structure ContentConfig where
  collections : List (String × CollectionConfig)
  deriving DecidableEq

/-- States of the Content-Config Observable. -/
inductive ObsStatus where
  | unloaded
  | loading
  | loaded (config : ContentConfig)
  | doesNotExist
  | error (message : String)
  deriving DecidableEq

/-- The mutable state owned by `createContentTypesGenerator`: the Collection
Map and the Content-Config Observable. `obsTrace` records every status stored
into the observable, in order, so that the transition sequence is observable
in the embedding. -/
structure GenState where
  collectionTypes : CollectionTypes
  obsStatus : ObsStatus
  obsTrace : List ObsStatus
  deriving DecidableEq

/-- `contentConfigObserver.set(s)`. -/
def obsSet (st : GenState) (s : ObsStatus) : GenState :=
  { st with obsStatus := s, obsTrace := st.obsTrace ++ [s] }

/-- `addCollection` from the source: assigns an empty entry record to the
collection key. -/
def addCollection (contentMap : CollectionTypes) (collectionKey : String) : CollectionTypes :=
  setA contentMap collectionKey []

/-- `removeCollection` from the source. -/
def removeCollection (contentMap : CollectionTypes) (collectionKey : String) : CollectionTypes :=
  removeA contentMap collectionKey

/-- `setEntry` from the source: `contentTypes[collectionKey][entryKey] = metadata`
(the source only calls it when the collection key is present; on an absent key
this embedding is the identity where JS would throw). -/
def setEntry (contentTypes : CollectionTypes) (collectionKey entryKey : String)
    (metadata : EntryMetadata) : CollectionTypes :=
  contentTypes.map (fun p => if p.1 = collectionKey then (p.1, setA p.2 entryKey metadata) else p)

/-- `removeEntry` from the source: `delete contentTypes[collectionKey][entryKey]`. -/
def removeEntry (contentTypes : CollectionTypes) (collectionKey entryKey : String) : CollectionTypes :=
  contentTypes.map (fun p => if p.1 = collectionKey then (p.1, removeA p.2 entryKey) else p)

/-- The chokidar event names. -/
inductive EventName where
  | add
  | addDir
  | change
  | unlink
  | unlinkDir
  deriving DecidableEq

/-- A content event. `entry` is the event path relative to the content
directory, normalized with forward slashes (the source stores an absolute URL
and computes this relative form; `queueEvent` discards events outside the
content directory before they reach `handleEvent`). -/
structure ContentEvent where
  name : EventName
  entry : String
  deriving DecidableEq

/-- Result of `getEntryType`. -/
inductive EntryType where
  | ignored
  | config
  | content
  | data
  | unsupported
  deriving DecidableEq

/-- The fixed collaborators of one generator session: the reserved config file
path, the recognized extension sets, the frontmatter-derived slug for a path
(`parseSlug`, which reads the file and applies override-or-derive logic), and
the outcome of the external config loader (`loadContentConfig`). -/
structure Env where
  configFile : String
  contentEntryExts : List String
  dataEntryExts : List String
  slugOf : String → String
  loadResult : Except String (Option ContentConfig)

/-- Modelled from the spec: `getEntryType` from utils.js (not under src/).
Classifies a path: the reserved config filename, the content extension set,
the data extension set, otherwise unsupported. Paths outside the content root
(`ignored`) are filtered out by `queueEvent` before handling, so the embedding
never produces `ignored` for the relative paths it is given. -/
def getEntryType (env : Env) (relPath : String) : EntryType :=
  if relPath = env.configFile then EntryType.config
  else if env.contentEntryExts.contains (extname relPath) then EntryType.content
  else if env.dataEntryExts.contains (extname relPath) then EntryType.data
  else EntryType.unsupported

/-- Modelled from the spec: `getEntryCollectionName` from utils.js — the first
path segment when the entry is nested in a collection directory, none when the
file sits directly under the content root. -/
def getEntryCollectionName (relPath : String) : Option String :=
  let segments := splitOnChar '/' relPath
  if segments.length ≥ 2 then some (segments.headD "") else none

/-- Modelled from the spec: the path-derived entry id of
`getContentEntryIdAndSlug` from utils.js — the path relative to the collection
directory (the full relative path when the collection is the empty string, as
in the unsupported-file branch). -/
def contentEntryIdOf (relPath collection : String) : String :=
  if collection = "" then relPath
  else String.intercalate "/" ((splitOnChar '/' relPath).drop 1)

/-- Modelled from the spec: `getDataEntryId` from utils.js — like the content
entry id but with the file extension dropped. -/
def getDataEntryId (relPath collection : String) : String :=
  let id := contentEntryIdOf relPath collection
  let ext := extname id
  if ext = "" then id else String.mk (id.data.take (id.data.length - ext.data.length))

/-- The tuple returned by `handleEvent`: the successor state together with
`{ shouldGenerateTypes, error }`; the only error the source ever returns is an
`UnsupportedFileTypeError` carrying the entry id, embedded as `Option String`. -/
structure HandleResult where
  state : GenState
  shouldGenerateTypes : Bool
  error : Option String
  deriving DecidableEq

/-- `handleEvent` from the source, embedded with explicit state passing. -/
def handleEvent (env : Env) (st : GenState) (event : ContentEvent) : HandleResult :=
  if event.name = EventName.addDir ∨ event.name = EventName.unlinkDir then
    let collection := event.entry
    let isCollectionEvent := (splitOnChar '/' collection).length = 1
    if ¬ isCollectionEvent then ⟨st, false, none⟩
    else if event.name = EventName.addDir then
      ⟨{ st with collectionTypes :=
          addCollection st.collectionTypes (jsonStringify collection) }, true, none⟩
    else
      ⟨{ st with collectionTypes :=
          removeCollection st.collectionTypes (jsonStringify collection) }, true, none⟩
  else
    match getEntryType env event.entry with
    | EntryType.ignored => ⟨st, false, none⟩
    | EntryType.config =>
      let st1 := obsSet st ObsStatus.loading
      match env.loadResult with
      | Except.ok (some config) => ⟨obsSet st1 (ObsStatus.loaded config), true, none⟩
      | Except.ok none => ⟨obsSet st1 ObsStatus.doesNotExist, true, none⟩
      | Except.error e => ⟨obsSet st1 (ObsStatus.error e), true, none⟩
    | EntryType.unsupported =>
      if event.name = EventName.unlink then ⟨st, false, none⟩
      else ⟨st, false, some (contentEntryIdOf event.entry "")⟩
    | EntryType.data =>
      match getEntryCollectionName event.entry with
      | none => ⟨st, false, none⟩
      | some collection =>
        let id := getDataEntryId event.entry collection
        let collectionKey := jsonStringify collection
        let entryKey := jsonStringify id
        match event.name with
        | EventName.add =>
          let m0 := if hasKeyA st.collectionTypes collectionKey then st.collectionTypes
            else addCollection st.collectionTypes collectionKey
          let m1 := if hasKeyA ((lookupA m0 collectionKey).getD []) entryKey then m0
            else setEntry m0 collectionKey entryKey EntryMetadata.data
          ⟨{ st with collectionTypes := m1 }, true, none⟩
        | EventName.unlink =>
          let m1 := if hasKeyA st.collectionTypes collectionKey
              && hasKeyA ((lookupA st.collectionTypes collectionKey).getD []) entryKey then
              removeEntry st.collectionTypes collectionKey entryKey
            else st.collectionTypes
          ⟨{ st with collectionTypes := m1 }, true, none⟩
        | EventName.change => ⟨st, false, none⟩
        | _ => ⟨st, false, none⟩
    | EntryType.content =>
      match getEntryCollectionName event.entry with
      | none => ⟨st, false, none⟩
      | some collection =>
        let id := contentEntryIdOf event.entry collection
        let collectionKey := jsonStringify collection
        let entryKey := jsonStringify id
        match event.name with
        | EventName.add =>
          let addedSlug := env.slugOf event.entry
          let m0 := if hasKeyA st.collectionTypes collectionKey then st.collectionTypes
            else addCollection st.collectionTypes collectionKey
          let m1 := if hasKeyA ((lookupA m0 collectionKey).getD []) entryKey then m0
            else setEntry m0 collectionKey entryKey (EntryMetadata.content addedSlug)
          ⟨{ st with collectionTypes := m1 }, true, none⟩
        | EventName.unlink =>
          let m1 := if hasKeyA st.collectionTypes collectionKey
              && hasKeyA ((lookupA st.collectionTypes collectionKey).getD []) entryKey then
              removeEntry st.collectionTypes collectionKey entryKey
            else st.collectionTypes
          ⟨{ st with collectionTypes := m1 }, true, none⟩
        | EventName.change =>
          let changedSlug := env.slugOf event.entry
          match (lookupA st.collectionTypes collectionKey).bind
              (fun em => lookupA em entryKey) with
          | some (EntryMetadata.content storedSlug) =>
            if storedSlug ≠ changedSlug then
              ⟨{ st with collectionTypes :=
                  (setEntry st.collectionTypes collectionKey entryKey
                    (EntryMetadata.content changedSlug)) }, true, none⟩
            else ⟨st, false, none⟩
          | _ => ⟨st, false, none⟩
        | _ => ⟨st, false, none⟩

/-- The sequential event loop of `runEvents`: processes the queued events in
order, threading the Collection Map state, and collects the per-event
responses. -/
def processEvents (env : Env) : GenState → List ContentEvent → GenState × List HandleResult
  | st, [] => (st, [])
  | st, e :: rest =>
    let r := handleEvent env st e
    let (st', rs) := processEvents env r.state rest
    (st', r :: rs)

/-- Outcome of one `runEvents` pass: final state, per-event responses in FIFO
order, the batched unsupported-file ids, and how many manifest writes the pass
performed. -/
structure RunResult where
  state : GenState
  responses : List HandleResult
  unsupportedFiles : List String
  manifestWrites : Nat

/-- `runEvents` from the source: drains the queue in FIFO order, collects the
unsupported-file errors for one batched warning, and performs a single
manifest write exactly when some response asked for type generation. -/
def runEvents (env : Env) (st : GenState) (events : List ContentEvent) : RunResult :=
  let out := processEvents env st events
  let unsupported := out.2.filterMap (fun r => r.error)
  let writes := if out.2.any (fun r => r.shouldGenerateTypes) then 1 else 0
  ⟨out.1, out.2, unsupported, writes⟩

/-- `Object.keys(contentTypes).sort()` in `writeContentFiles`: the stored
collection keys in the default JS sort order. -/
def sortedCollectionKeys (contentTypes : CollectionTypes) : List String :=
  List.insertionSort jsLe (contentTypes.map Prod.fst)

/-- `Object.keys(contentTypes[collectionKey]).sort()`. -/
def sortedEntryKeys (em : EntryMap) : List String :=
  List.insertionSort jsLe (em.map Prod.fst)

/-- The `dataType` string of `writeContentFiles`:
`collectionConfig?.schema ? InferEntrySchema<key> : 'any'`. -/
def dataTypeStr (contentConfig : Option ContentConfig) (collectionKey : String) : String :=
  match contentConfig with
  | none => "any"
  | some cfg =>
    match lookupA cfg.collections (jsonParseString collectionKey) with
    | none => "any"
    | some cc =>
      if cc.hasSchema then "InferEntrySchema<" ++ collectionKey ++ ">" else "any"

/-- One entry line of the generated entry map, following the template literals
of `writeContentFiles` verbatim (tabs and two-space indents as in the source). -/
def entryLine (contentConfig : Option ContentConfig) (collectionKey entryKey : String)
    (metadata : EntryMetadata) : String :=
  let dataType := dataTypeStr contentConfig collectionKey
  match metadata with
  | EntryMetadata.data =>
    entryKey ++ ": \x7b\n\ttype: \x27data\x27,\n\tid: " ++ entryKey ++
      ",\n\tcollection: " ++ collectionKey ++ ",\n\tdata: " ++ dataType ++ "\n\x7d,\n"
  | EntryMetadata.content slug =>
    let renderType := "\x7b render(): Render[" ++
      jsonStringify (extname (jsonParseString entryKey)) ++ "] \x7d"
    let slugType := jsonStringify slug
    entryKey ++ ": \x7b\n  type: \x27content\x27,\n\tid: " ++ entryKey ++
      ",\n  slug: " ++ slugType ++ ",\n  body: string,\n  collection: " ++
      collectionKey ++ ",\n  data: " ++ dataType ++ "\n\x7d & " ++ renderType ++ ",\n"

/-- The block `writeContentFiles` appends for one collection: the collection
key, then its entries in sorted entry-key order. -/
def collectionBlock (contentConfig : Option ContentConfig) (contentTypes : CollectionTypes)
    (collectionKey : String) : String :=
  let em := (lookupA contentTypes collectionKey).getD []
  collectionKey ++ ": \x7b\n" ++
    String.join ((sortedEntryKeys em).map (fun ek =>
      match lookupA em ek with
      | some md => entryLine contentConfig collectionKey ek md
      | none => "")) ++
    "\x7d,\n"

/-- The `contentTypesStr` accumulator of `writeContentFiles`: collections in
sorted collection-key order. -/
def contentTypesStrOf (contentConfig : Option ContentConfig)
    (contentTypes : CollectionTypes) : String :=
  String.join ((sortedCollectionKeys contentTypes).map
    (collectionBlock contentConfig contentTypes))

/-- Modelled from the spec: `isRelativePath` from core/path.js (not under
src/) — whether the path already starts with an explicit relative segment. -/
def isRelativePath (p : String) : Bool :=
  isPrefixOfL "./".data p.data || isPrefixOfL "../".data p.data

/-- The inputs of one `writeContentFiles` invocation: the Collection Map, the
types template text, the `contentModuleTypes` snippets of the registered
content entry types (those that are present, in registration order), the
loaded content config if any, and the config path relative to the cache
directory (computed by the caller from the content paths). -/
structure WriteInputs where
  contentTypes : CollectionTypes
  typeTemplateContent : String
  contentModuleTypesList : List String
  contentConfig : Option ContentConfig
  configPathRelativeToCacheDir : String

/-- `writeContentFiles` from the source, as the text it writes to the
generated types file. -/
def writeContentFiles (w : WriteInputs) : String :=
  let contentTypesStr := contentTypesStrOf w.contentConfig w.contentTypes
  let p0 := w.configPathRelativeToCacheDir
  let p1 := if isRelativePath p0 then p0 else "./" ++ p0
  let p2 := if isPrefixOfL ".ts".data.reverse p1.data.reverse then
      String.mk (p1.data.take (p1.data.length - 3))
    else p1
  let t0 := w.contentModuleTypesList.foldl
    (fun acc mt => mt ++ "\n" ++ acc) w.typeTemplateContent
  let t1 := replaceFirst t0 "// @@ENTRY_MAP@@" contentTypesStr
  let t2 := replaceFirst t1 "\x27@@CONTENT_CONFIG_TYPE@@\x27"
    (match w.contentConfig with
     | some _ => "typeof import(" ++ jsonStringify p2 ++ ")"
     | none => "never")
  t2

/-- Two Collection Maps carry the same bindings: same key sets (without
duplicates, as JS Records guarantee) and, collection by collection, the same
entry bindings up to insertion order. -/
def MapEquiv (m1 m2 : CollectionTypes) : Prop :=
  (m1.map Prod.fst).Nodup ∧ (m2.map Prod.fst).Nodup ∧
  (m1.map Prod.fst).Perm (m2.map Prod.fst) ∧
  ∀ ck ∈ m1.map Prod.fst,
    ((lookupA m1 ck).getD []).Perm ((lookupA m2 ck).getD []) ∧
    ((((lookupA m1 ck).getD []).map Prod.fst).Nodup)

/-- Modelled from the spec: the reserved stylesheet-list placeholder token
(consts.js is not under src/; only that it is a fixed reserved literal
matters). -/
def LINKS_PLACEHOLDER : String := "@@ASTRO-LINKS-PLACEHOLDER@@"

/-- Modelled from the spec: the reserved hoisted-script-list placeholder
token. -/
def SCRIPTS_PLACEHOLDER : String := "@@ASTRO-SCRIPTS-PLACEHOLDER@@"

/-- One rollup output chunk as `astroConfigBuildPlugin` consumes it:
whether `type === 'chunk'`, its code, the ids of its contained modules
(`Object.keys(chunk.modules)`), and its emitted file name. -/
structure OutputChunk where
  isChunk : Bool
  code : String
  modules : List String
  fileName : String

/-- The per-page asset maps populated during rendering
(`pageData.propagatedStyles` / `pageData.propagatedScripts`), keyed by module
id. -/
structure PageData where
  propagatedStyles : String → Option (List String)
  propagatedScripts : String → Option (List String)

/-- The build-time collaborators of `astroConfigBuildPlugin`. `pagesOf` is
modelled from the spec: `walkParentInfos` plus the `moduleIsTopLevelPage`
filter (core/build/graph.js is not under src/) — for a module id, the
top-level pages reachable backward over importer edges. `pageData` is
`getPageDataByViteID`. -/
structure BuildEnv where
  pagesOf : String → List String
  pageData : String → Option PageData

/-- Modelled from the spec: `prependForwardSlash` from core/path.js. -/
def prependForwardSlash (p : String) : String :=
  if isPrefixOfL "/".data p.data then p else "/" ++ p

/-- Modelled from the spec: `joinPaths` from core/path.js — joins two segments
with exactly one slash between them. -/
def joinPaths (a b : String) : String :=
  (if isPrefixOfL "/".data.reverse a.data.reverse then String.mk a.data.dropLast else a)
    ++ "/" ++ (if isPrefixOfL "/".data b.data then String.mk (b.data.drop 1) else b)

/-- The `prependBase` closure of the `build:post` hook: the asset prefix takes
precedence over the base path. -/
def prependBase (assetsPrefix : Option String) (base : String) (src : String) : String :=
  match assetsPrefix with
  | some pre => joinPaths pre src
  | none => prependForwardSlash (joinPaths base src)

/-- `Set.prototype.add`: append only when absent, preserving first-insertion
order as JS Sets do. -/
def insertSet (s : List String) (x : String) : List String :=
  if x ∈ s then s else s ++ [x]

/-- Adding every element of a collection to a JS Set. -/
def addAllSet (s : List String) (xs : List String) : List String :=
  xs.foldl insertSet s

/-- The body of the inner walk loop of the `build:post` hook: for one module
id of the chunk and one page reported by the Walker for it, union that page's
propagated styles and scripts for the module into the accumulator sets
(skipping pages with no page data, as `getPageDataByViteID` may report). -/
def pageStep (env : BuildEnv) (m : String) (acc2 : List String × List String)
    (page : String) : List String × List String :=
  match env.pageData page with
  | none => acc2
  | some pd =>
    let c1 := match pd.propagatedStyles m with
      | some vs => addAllSet acc2.1 vs
      | none => acc2.1
    let s1 := match pd.propagatedScripts m with
      | some vs => addAllSet acc2.2 vs
      | none => acc2.2
    (c1, s1)

/-- One iteration of the outer loop over the chunk's module ids. -/
def collectStep (env : BuildEnv) (acc : List String × List String) (m : String) :
    List String × List String :=
  (env.pagesOf m).foldl (pageStep env m) acc

/-- The accumulation loop of the `build:post` hook for one chunk: for every
contained module id and every owning page, union that page's propagated
styles and scripts for the module into the `entryCSS` and `entryScripts`
sets. -/
def collectChunkAssets (env : BuildEnv) (moduleIds : List String) :
    List String × List String :=
  moduleIds.foldl (collectStep env) ([], [])

/-- The body of the module scan of one client chunk: record the chunk's file
name when the module id is in the `entryScripts` set. -/
def fileNameStep (fileName : String) (entryScripts : List String)
    (acc3 : List String) (m : String) : List String :=
  if entryScripts.contains m then insertSet acc3 fileName else acc3

/-- One client chunk of the `entryFileNames` scan: non-chunks are skipped. -/
def clientChunkStep (entryScripts : List String) (acc2 : List String)
    (clientChunk : OutputChunk) : List String :=
  if clientChunk.isChunk = false then acc2
  else clientChunk.modules.foldl (fileNameStep clientChunk.fileName entryScripts) acc2

/-- The `entryFileNames` set: the emitted client chunk file names whose module
lists meet the `entryScripts` set. -/
def collectEntryFileNames (clientOutputs : List (List OutputChunk))
    (entryScripts : List String) : List String :=
  clientOutputs.foldl (fun acc output =>
    output.foldl (clientChunkStep entryScripts) acc) []

/-- `JSON.stringify` of an array of strings. -/
def jsonStringArray (xs : List String) : String :=
  "[" ++ String.intercalate "," (xs.map jsonStringify) ++ "]"

/-- `JSON.stringify` of one `{props: {src, type: 'module'}, children: ''}`
script descriptor. -/
def scriptObjJson (src : String) : String :=
  "\x7b\"props\":\x7b\"src\":" ++ jsonStringify src ++
    ",\"type\":\"module\"\x7d,\"children\":\"\"\x7d"

/-- `JSON.stringify` of the array of script descriptors. -/
def scriptsJson (xs : List String) : String :=
  "[" ++ String.intercalate "," (xs.map scriptObjJson) ++ "]"

/-- The per-chunk work of the `build:post` hook: when the chunk is a code
chunk containing one of the placeholder tokens, compute the accumulator sets
and substitute each placeholder (in its JSON-quoted form, exactly as the
source does) when its accumulator is non-empty; otherwise leave the code
untouched. -/
def processChunk (env : BuildEnv) (assetsPrefix : Option String) (base : String)
    (clientOutputs : List (List OutputChunk)) (chunk : OutputChunk) : String :=
  if chunk.isChunk
      && (containsTok chunk.code LINKS_PLACEHOLDER
          || containsTok chunk.code SCRIPTS_PLACEHOLDER) then
    let acc := collectChunkAssets env chunk.modules
    let entryCSS := acc.1
    let entryScripts := acc.2
    let code1 := if entryCSS.length ≠ 0 then
        replaceFirst chunk.code (jsonStringify LINKS_PLACEHOLDER)
          (jsonStringArray (entryCSS.map (prependBase assetsPrefix base)))
      else chunk.code
    let code2 := if entryScripts.length ≠ 0 then
        replaceFirst code1 (jsonStringify SCRIPTS_PLACEHOLDER)
          (scriptsJson ((collectEntryFileNames clientOutputs entryScripts).map
            (prependBase assetsPrefix base)))
      else code1
    code2
  else chunk.code

/-- The collection and entry keys `handleEvent` computes for a file event
path, defined when the path resolves to a collection and is data- or
content-classified. -/
def eventKeysOf (env : Env) (p : String) : Option (String × String) :=
  match getEntryCollectionName p with
  | none => none
  | some collection =>
    match getEntryType env p with
    | EntryType.data =>
      some (jsonStringify collection, jsonStringify (getDataEntryId p collection))
    | EntryType.content =>
      some (jsonStringify collection, jsonStringify (contentEntryIdOf p collection))
    | _ => none

/-- A session with one content extension, one data extension and a config
loader that finds no definition, used for concrete instantiations. -/
def envC : Env := ⟨"config.ts", [".md"], [".json"], fun _ => "slug", Except.ok none⟩

/-- The initial generator state: empty Collection Map, observable unloaded. -/
def st0 : GenState := ⟨[], ObsStatus.unloaded, []⟩

theorem processEvents_fst (env : Env) :
    ∀ (events : List ContentEvent) (st : GenState),
      (processEvents env st events).1
        = events.foldl (fun s e => (handleEvent env s e).state) st := by
  intro events
  induction events with
  | nil => intro st; rfl
  | cons e rest ih =>
    intro st
    simp only [processEvents, List.foldl_cons]
    exact ih (handleEvent env st e).state

theorem processEvents_length (env : Env) :
    ∀ (events : List ContentEvent) (st : GenState),
      (processEvents env st events).2.length = events.length := by
  intro events
  induction events with
  | nil => intro st; rfl
  | cons e rest ih =>
    intro st
    simp only [processEvents, List.length_cons]
    simpa using ih (handleEvent env st e).state

/-- C1: for an entry tracked as a content entry, a `change` event recomputes
the slug and signals a manifest regeneration exactly when the recomputed slug
differs from the stored one; when it is unchanged, the handler reports no
regeneration and leaves the state untouched. -/
theorem change_regen_iff_slug_differs (env : Env) (st : GenState)
    (p collection storedSlug : String)
    (hty : getEntryType env p = EntryType.content)
    (hcol : getEntryCollectionName p = some collection)
    (hmeta : (lookupA st.collectionTypes (jsonStringify collection)).bind
        (fun em => lookupA em (jsonStringify (contentEntryIdOf p collection)))
        = some (EntryMetadata.content storedSlug)) :
    ((handleEvent env st ⟨EventName.change, p⟩).shouldGenerateTypes = true
      ↔ env.slugOf p ≠ storedSlug)
    ∧ (env.slugOf p = storedSlug →
        handleEvent env st ⟨EventName.change, p⟩ = ⟨st, false, none⟩) := by
  unfold handleEvent
  simp only [hty, hcol, hmeta]
  by_cases h : storedSlug = env.slugOf p
  · subst h
    simp
  · simp [h, Ne.symm h]

/-- Witness for C1: stored slug `slug-old`, recomputed slug `slug`; the change
event signals regeneration. -/
theorem change_regen_iff_slug_differs_witness :
    (handleEvent envC
      ⟨[("\"blog\"", [("\"a.md\"", EntryMetadata.content "slug-old")])],
        ObsStatus.unloaded, []⟩
      ⟨EventName.change, "blog/a.md"⟩).shouldGenerateTypes = true :=
  ((change_regen_iff_slug_differs envC
      ⟨[("\"blog\"", [("\"a.md\"", EntryMetadata.content "slug-old")])],
        ObsStatus.unloaded, []⟩
      "blog/a.md" "blog" "slug-old" (by decide) (by decide) (by decide)).1).mpr (by decide)

/-- C3: a batch run drains the queue in FIFO order (the final state is the
left fold of the handler over the queued events) and performs exactly one
manifest write when some per-event outcome asked for regeneration, none when
no outcome did. -/
theorem runEvents_fifo_single_write (env : Env) (st : GenState)
    (events : List ContentEvent) :
    (runEvents env st events).state
      = events.foldl (fun s e => (handleEvent env s e).state) st
    ∧ (runEvents env st events).responses.length = events.length
    ∧ ((runEvents env st events).manifestWrites = 1
        ↔ ∃ r ∈ (runEvents env st events).responses, r.shouldGenerateTypes = true)
    ∧ ((runEvents env st events).manifestWrites = 0
        ↔ ∀ r ∈ (runEvents env st events).responses, r.shouldGenerateTypes = false) := by
  have hresp : (runEvents env st events).responses = (processEvents env st events).2 := rfl
  have hw : (runEvents env st events).manifestWrites
      = if (processEvents env st events).2.any (fun r => r.shouldGenerateTypes) = true
        then 1 else 0 := rfl
  refine ⟨processEvents_fst env events st, processEvents_length env events st, ?_, ?_⟩
  · rw [hresp, hw]
    by_cases h : (processEvents env st events).2.any (fun r => r.shouldGenerateTypes) = true
    · rw [if_pos h]
      rw [List.any_eq_true] at h
      exact ⟨fun _ => h, fun _ => rfl⟩
    · rw [if_neg h]
      rw [List.any_eq_true] at h
      exact ⟨fun h0 => absurd h0 (by decide), fun hex => absurd hex h⟩
  · rw [hresp, hw]
    by_cases h : (processEvents env st events).2.any (fun r => r.shouldGenerateTypes) = true
    · rw [if_pos h]
      rw [List.any_eq_true] at h
      obtain ⟨r, hr, hp⟩ := h
      constructor
      · intro h0
        exact absurd h0 (by decide)
      · intro hall
        have hfalse := hall r hr
        rw [hp] at hfalse
        exact absurd hfalse (by decide)
    · rw [if_neg h]
      rw [List.any_eq_true] at h
      constructor
      · intro _ r hr
        by_contra hne
        exact h ⟨r, hr, by revert hne; cases r.shouldGenerateTypes <;> simp⟩
      · intro _
        rfl

/-- C5: a directory event names a collection exactly when its relative path
has a single segment; then `addDir` stores the named collection with an empty
entry record and `unlinkDir` deletes it, both signalling regeneration; at any
other depth the handler leaves the state untouched and signals nothing. -/
theorem dir_event_depth_one (env : Env) (st : GenState) (ev : ContentEvent)
    (hdir : ev.name = EventName.addDir ∨ ev.name = EventName.unlinkDir) :
    ((splitOnChar '/' ev.entry).length = 1 →
      (handleEvent env st ev).shouldGenerateTypes = true
      ∧ (handleEvent env st ev).state =
        (if ev.name = EventName.addDir then
          { st with collectionTypes :=
              addCollection st.collectionTypes (jsonStringify ev.entry) }
        else
          { st with collectionTypes :=
              removeCollection st.collectionTypes (jsonStringify ev.entry) }))
    ∧ ((splitOnChar '/' ev.entry).length ≠ 1 →
      handleEvent env st ev = ⟨st, false, none⟩) := by
  rcases hdir with h | h
  · unfold handleEvent
    simp only [h]
    constructor
    · intro hd
      simp [hd]
    · intro hd
      simp [hd]
  · unfold handleEvent
    simp only [h]
    constructor
    · intro hd
      simp [hd]
    · intro hd
      simp [hd]

/-- Witness for C5: `addDir blog` at depth one adds the collection and
signals regeneration. -/
theorem dir_event_depth_one_witness :
    (handleEvent envC st0 ⟨EventName.addDir, "blog"⟩).shouldGenerateTypes = true
    ∧ (handleEvent envC st0 ⟨EventName.addDir, "blog"⟩).state =
        (if (⟨EventName.addDir, "blog"⟩ : ContentEvent).name = EventName.addDir then
          { st0 with collectionTypes := addCollection st0.collectionTypes (jsonStringify "blog") }
        else
          { st0 with collectionTypes := removeCollection st0.collectionTypes (jsonStringify "blog") }) :=
  (dir_event_depth_one envC st0 ⟨EventName.addDir, "blog"⟩ (Or.inl rfl)).1 (by decide)

/-- C7: a `change` event for a data-classified entry leaves the state
untouched and never signals regeneration. -/
theorem data_change_is_noop (env : Env) (st : GenState) (p : String)
    (hty : getEntryType env p = EntryType.data) :
    handleEvent env st ⟨EventName.change, p⟩ = ⟨st, false, none⟩ := by
  unfold handleEvent
  simp only [hty]
  cases h : getEntryCollectionName p with
  | none => simp [h]
  | some c => simp [h]

/-- Witness for C7: a change to `data/settings.json` is a no-op. -/
theorem data_change_is_noop_witness :
    handleEvent envC
        ⟨[("\"data\"", [("\"settings\"", EntryMetadata.data)])], ObsStatus.unloaded, []⟩
        ⟨EventName.change, "data/settings.json"⟩
      = ⟨⟨[("\"data\"", [("\"settings\"", EntryMetadata.data)])], ObsStatus.unloaded, []⟩,
          false, none⟩ :=
  data_change_is_noop envC
    ⟨[("\"data\"", [("\"settings\"", EntryMetadata.data)])], ObsStatus.unloaded, []⟩
    "data/settings.json" (by decide)

/-- C8: a config-file event first stores `loading` into the observable, then
the loader outcome decides the final stored status (`loaded` with the
definition, `does-not-exist` without one, `error` with the cause), the
Collection Map is untouched, and regeneration is always signalled. -/
theorem config_event_transitions (env : Env) (st : GenState) (ev : ContentEvent)
    (hfile : ev.name = EventName.add ∨ ev.name = EventName.change
      ∨ ev.name = EventName.unlink)
    (hty : getEntryType env ev.entry = EntryType.config) :
    (handleEvent env st ev).shouldGenerateTypes = true
    ∧ (handleEvent env st ev).state.collectionTypes = st.collectionTypes
    ∧ (handleEvent env st ev).state.obsTrace = st.obsTrace ++
        [ObsStatus.loading,
          match env.loadResult with
          | Except.ok (some c) => ObsStatus.loaded c
          | Except.ok none => ObsStatus.doesNotExist
          | Except.error e => ObsStatus.error e]
    ∧ (handleEvent env st ev).state.obsStatus =
        (match env.loadResult with
          | Except.ok (some c) => ObsStatus.loaded c
          | Except.ok none => ObsStatus.doesNotExist
          | Except.error e => ObsStatus.error e) := by
  have hdir : ¬ (ev.name = EventName.addDir ∨ ev.name = EventName.unlinkDir) := by
    rcases hfile with h | h | h <;> simp [h]
  unfold handleEvent
  rw [if_neg hdir]
  simp only [hty]
  cases hload : env.loadResult with
  | ok o =>
    cases o with
    | none => simp [obsSet]
    | some c => simp [obsSet]
  | error e => simp [obsSet]

/-- Witness for C8: adding the config file with a loader that finds no
definition transitions the observable through `loading` to `does-not-exist`
and signals regeneration. -/
theorem config_event_transitions_witness :
    (handleEvent envC st0 ⟨EventName.add, "config.ts"⟩).shouldGenerateTypes = true
    ∧ (handleEvent envC st0 ⟨EventName.add, "config.ts"⟩).state.collectionTypes
        = st0.collectionTypes
    ∧ (handleEvent envC st0 ⟨EventName.add, "config.ts"⟩).state.obsTrace = st0.obsTrace ++
        [ObsStatus.loading,
          match envC.loadResult with
          | Except.ok (some c) => ObsStatus.loaded c
          | Except.ok none => ObsStatus.doesNotExist
          | Except.error e => ObsStatus.error e]
    ∧ (handleEvent envC st0 ⟨EventName.add, "config.ts"⟩).state.obsStatus =
        (match envC.loadResult with
          | Except.ok (some c) => ObsStatus.loaded c
          | Except.ok none => ObsStatus.doesNotExist
          | Except.error e => ObsStatus.error e) :=
  config_event_transitions envC st0 ⟨EventName.add, "config.ts"⟩ (Or.inl rfl) (by decide)

/-- C10: an `add` event for an entry id already present in its collection
leaves the whole state unchanged — in particular the stored slug or type is
not overwritten — while still signalling regeneration. -/
theorem add_existing_entry_keeps_metadata (env : Env) (st : GenState)
    (p ck ek : String) (md : EntryMetadata)
    (hkeys : eventKeysOf env p = some (ck, ek))
    (hmeta : (lookupA st.collectionTypes ck).bind (fun em => lookupA em ek) = some md) :
    (handleEvent env st ⟨EventName.add, p⟩).state = st
    ∧ (handleEvent env st ⟨EventName.add, p⟩).shouldGenerateTypes = true := by
  obtain ⟨em, h1, h2⟩ := Option.bind_eq_some.mp hmeta
  unfold eventKeysOf at hkeys
  rcases hcol : getEntryCollectionName p with _ | collection
  · simp [hcol] at hkeys
  · simp only [hcol] at hkeys
    rcases hty : getEntryType env p with _ | _ | _ | _ | _ <;>
      simp only [hty] at hkeys <;>
      try exact Option.noConfusion hkeys
    · -- content classification
      rw [Option.some.injEq, Prod.mk.injEq] at hkeys
      obtain ⟨hck, hek⟩ := hkeys
      subst hck
      subst hek
      unfold handleEvent
      have hhk : hasKeyA st.collectionTypes (jsonStringify collection) = true := by
        simp [hasKeyA, h1]
      simp only [hty, hcol, hhk, if_true]
      have hhe : hasKeyA ((lookupA st.collectionTypes (jsonStringify collection)).getD [])
          (jsonStringify (contentEntryIdOf p collection)) = true := by
        simp [h1, hasKeyA, h2]
      simp [hhe]
    · -- data classification
      rw [Option.some.injEq, Prod.mk.injEq] at hkeys
      obtain ⟨hck, hek⟩ := hkeys
      subst hck
      subst hek
      unfold handleEvent
      have hhk : hasKeyA st.collectionTypes (jsonStringify collection) = true := by
        simp [hasKeyA, h1]
      simp only [hty, hcol, hhk, if_true]
      have hhe : hasKeyA ((lookupA st.collectionTypes (jsonStringify collection)).getD [])
          (jsonStringify (getDataEntryId p collection)) = true := by
        simp [h1, hasKeyA, h2]
      simp [hhe]

/-- Witness for C10: re-adding `blog/a.md` whose id is tracked with slug
`kept` changes nothing but still signals regeneration. -/
theorem add_existing_entry_keeps_metadata_witness :
    (handleEvent envC
        ⟨[("\"blog\"", [("\"a.md\"", EntryMetadata.content "kept")])],
          ObsStatus.unloaded, []⟩
        ⟨EventName.add, "blog/a.md"⟩).state
      = ⟨[("\"blog\"", [("\"a.md\"", EntryMetadata.content "kept")])],
          ObsStatus.unloaded, []⟩
    ∧ (handleEvent envC
        ⟨[("\"blog\"", [("\"a.md\"", EntryMetadata.content "kept")])],
          ObsStatus.unloaded, []⟩
        ⟨EventName.add, "blog/a.md"⟩).shouldGenerateTypes = true :=
  add_existing_entry_keeps_metadata envC
    ⟨[("\"blog\"", [("\"a.md\"", EntryMetadata.content "kept")])], ObsStatus.unloaded, []⟩
    "blog/a.md" "\"blog\"" "\"a.md\"" (EntryMetadata.content "kept")
    (by decide) (by decide)

theorem hasKeyA_iff_mem {α : Type} :
    ∀ (m : List (String × α)) (k : String),
      hasKeyA m k = true ↔ k ∈ m.map Prod.fst := by
  intro m
  induction m with
  | nil => intro k; simp [hasKeyA, lookupA]
  | cons p rest ih =>
    intro k
    by_cases h : p.1 = k
    · simp [hasKeyA, lookupA, h]
    · simp only [hasKeyA, lookupA, h, if_false, List.map_cons, List.mem_cons]
      rw [← hasKeyA]
      rw [ih k]
      simp [Ne.symm h]

theorem removeA_setA_cancel {α : Type} :
    ∀ (em : List (String × α)) (ek : String) (v : α),
      hasKeyA em ek = false → removeA (setA em ek v) ek = em := by
  intro em
  induction em with
  | nil =>
    intro ek v _
    simp [setA, removeA]
  | cons p rest ih =>
    intro ek v h
    obtain ⟨k, w⟩ := p
    by_cases hk : k = ek
    · subst hk
      simp [hasKeyA, lookupA] at h
    · have hrest : hasKeyA rest ek = false := by
        simpa [hasKeyA, lookupA, hk] using h
      simp only [setA, hk, if_false, removeA, List.filter_cons]
      have : (k != ek) = true := by simp [hk]
      simp only [this, if_true]
      rw [← removeA, ih ek v hrest]

theorem setEntry_of_not_mem (m : CollectionTypes) (ck ek : String) (v : EntryMetadata)
    (h : ck ∉ m.map Prod.fst) : setEntry m ck ek v = m := by
  induction m with
  | nil => rfl
  | cons p rest ih =>
    simp only [List.map_cons, List.mem_cons, not_or] at h
    simp only [setEntry, List.map_cons]
    rw [if_neg (fun he => h.1 he.symm)]
    have := ih h.2
    simp only [setEntry] at this
    rw [this]

theorem removeEntry_of_not_mem (m : CollectionTypes) (ck ek : String)
    (h : ck ∉ m.map Prod.fst) : removeEntry m ck ek = m := by
  induction m with
  | nil => rfl
  | cons p rest ih =>
    simp only [List.map_cons, List.mem_cons, not_or] at h
    simp only [removeEntry, List.map_cons]
    rw [if_neg (fun he => h.1 he.symm)]
    have := ih h.2
    simp only [removeEntry] at this
    rw [this]

theorem setEntry_keys (m : CollectionTypes) (ck ek : String) (v : EntryMetadata) :
    (setEntry m ck ek v).map Prod.fst = m.map Prod.fst := by
  induction m with
  | nil => rfl
  | cons p rest ih =>
    simp only [setEntry, List.map_cons] at ih ⊢
    by_cases h : p.1 = ck <;> simp [h, ih]

theorem removeEntry_keys (m : CollectionTypes) (ck ek : String) :
    (removeEntry m ck ek).map Prod.fst = m.map Prod.fst := by
  induction m with
  | nil => rfl
  | cons p rest ih =>
    simp only [removeEntry, List.map_cons] at ih ⊢
    by_cases h : p.1 = ck <;> simp [h, ih]

theorem setA_keys_of_not_has {α : Type} :
    ∀ (m : List (String × α)) (k : String) (v : α), hasKeyA m k = false →
      (setA m k v).map Prod.fst = m.map Prod.fst ++ [k] := by
  intro m
  induction m with
  | nil => intro k v _; rfl
  | cons p rest ih =>
    intro k v h
    by_cases hk : p.1 = k
    · simp [hasKeyA, lookupA, hk] at h
    · have hrest : hasKeyA rest k = false := by
        simpa [hasKeyA, lookupA, hk] using h
      obtain ⟨k0, w⟩ := p
      simp only [setA, List.map_cons]
      rw [if_neg (by simpa using hk)]
      simp [ih k v hrest]

theorem lookupA_setEntry_self (m : CollectionTypes) (ck ek : String) (v : EntryMetadata) :
    lookupA (setEntry m ck ek v) ck = (lookupA m ck).map (fun em => setA em ek v) := by
  induction m with
  | nil => rfl
  | cons p rest ih =>
    obtain ⟨k, em0⟩ := p
    by_cases h : k = ck
    · subst h
      simp only [setEntry, List.map_cons]
      rw [if_pos trivial]
      simp [lookupA]
    · simp only [setEntry, List.map_cons]
      rw [if_neg (fun he => h he)]
      simp only [lookupA, if_neg h]
      exact ih

theorem setA_hasKey_self {α : Type} :
    ∀ (em : List (String × α)) (ek : String) (v : α), hasKeyA (setA em ek v) ek = true := by
  intro em
  induction em with
  | nil => intro ek v; simp [setA, hasKeyA, lookupA]
  | cons p rest ih =>
    intro ek v
    obtain ⟨k, w⟩ := p
    by_cases h : k = ek
    · subst h
      simp [setA, hasKeyA, lookupA]
    · simp only [setA, if_neg h, hasKeyA, lookupA]
      exact ih ek v

theorem removeEntry_setEntry_cancel :
    ∀ (m : CollectionTypes) (ck ek : String) (v : EntryMetadata),
      (m.map Prod.fst).Nodup →
      hasKeyA ((lookupA m ck).getD []) ek = false →
      removeEntry (setEntry m ck ek v) ck ek = m := by
  intro m
  induction m with
  | nil => intro ck ek v _ _; rfl
  | cons p rest ih =>
    intro ck ek v hnd hek
    obtain ⟨k, em0⟩ := p
    simp only [List.map_cons, List.nodup_cons] at hnd
    by_cases h : k = ck
    · subst h
      have hek' : hasKeyA em0 ek = false := by
        simpa [lookupA] using hek
      simp only [setEntry, List.map_cons]
      rw [if_pos trivial]
      have hrest : List.map (fun p => if p.1 = k then (p.1, setA p.2 ek v) else p) rest
          = rest := by
        have := setEntry_of_not_mem rest k ek v hnd.1
        simpa [setEntry] using this
      rw [hrest]
      simp only [removeEntry, List.map_cons]
      rw [if_pos trivial]
      have hrest2 : List.map (fun p => if p.1 = k then (p.1, removeA p.2 ek) else p) rest
          = rest := by
        have := removeEntry_of_not_mem rest k ek hnd.1
        simpa [removeEntry] using this
      rw [hrest2]
      rw [removeA_setA_cancel em0 ek v hek']
    · simp only [lookupA, if_neg h] at hek
      simp only [setEntry, List.map_cons]
      rw [if_neg (fun he => h he)]
      simp only [removeEntry, List.map_cons]
      rw [if_neg (fun he => h he)]
      have := ih ck ek v hnd.2 hek
      simp only [setEntry, removeEntry] at this
      rw [this]

theorem unlink_after_set_guard (m : CollectionTypes) (ck ek : String) (v : EntryMetadata)
    (em : EntryMap) (hem : lookupA m ck = some em) :
    (hasKeyA (setEntry m ck ek v) ck
      && hasKeyA ((lookupA (setEntry m ck ek v) ck).getD []) ek) = true := by
  simp only [hasKeyA]
  rw [lookupA_setEntry_self, hem]
  simpa [hasKeyA] using setA_hasKey_self em ek v

/-- Counterexample to C2: from the empty Collection Map, `add` then `unlink`
of `blog/a.json` leaves an empty `blog` collection behind — the `unlink`
handler removes only the entry, never the collection that `add` created, so
the map does not return to its prior state. -/
theorem add_unlink_roundtrip_counterexample :
    (handleEvent envC
        (handleEvent envC st0 ⟨EventName.add, "blog/a.json"⟩).state
        ⟨EventName.unlink, "blog/a.json"⟩).state.collectionTypes
      = [("\"blog\"", [])]
    ∧ st0.collectionTypes = []
    ∧ (handleEvent envC
        (handleEvent envC st0 ⟨EventName.add, "blog/a.json"⟩).state
        ⟨EventName.unlink, "blog/a.json"⟩).state.collectionTypes
      ≠ st0.collectionTypes := by
  refine ⟨by decide, rfl, by decide⟩

/-- C2 (amended): `add` then `unlink` of the same entry path restores the
Collection Map (indeed the whole state) provided the entry's collection is
already tracked and its id is not: without these provisos `add` creates the
collection (which `unlink` does not remove) or leaves an already-present
entry in place for `unlink` to delete. -/
theorem add_unlink_roundtrip_restores (env : Env) (st : GenState) (p ck ek : String)
    (hkeys : eventKeysOf env p = some (ck, ek))
    (hnd : (st.collectionTypes.map Prod.fst).Nodup)
    (hck : hasKeyA st.collectionTypes ck = true)
    (hek : hasKeyA ((lookupA st.collectionTypes ck).getD []) ek = false) :
    (handleEvent env
      (handleEvent env st ⟨EventName.add, p⟩).state ⟨EventName.unlink, p⟩).state = st := by
  unfold eventKeysOf at hkeys
  rcases hcol : getEntryCollectionName p with _ | collection
  · simp [hcol] at hkeys
  · simp only [hcol] at hkeys
    rcases hty : getEntryType env p with _ | _ | _ | _ | _ <;>
      simp only [hty] at hkeys <;>
      try exact Option.noConfusion hkeys
    all_goals
      rw [Option.some.injEq, Prod.mk.injEq] at hkeys
    all_goals
      obtain ⟨hckk, hekk⟩ := hkeys
    all_goals
      subst hckk
    all_goals
      subst hekk
    · -- content classification
      have hlk : ∃ em, lookupA st.collectionTypes (jsonStringify collection) = some em := by
        have := hck
        simp [hasKeyA, Option.isSome_iff_exists] at this
        exact this
      obtain ⟨em, hem⟩ := hlk
      rw [hem, Option.getD_some] at hek
      have hadd : (handleEvent env st ⟨EventName.add, p⟩).state
          = { st with collectionTypes := (setEntry st.collectionTypes (jsonStringify collection)
                (jsonStringify (contentEntryIdOf p collection))
                (EntryMetadata.content (env.slugOf p))) } := by
        unfold handleEvent
        simp only [hty, hcol, hck, if_true]
        simp [hem, hek]
      rw [hadd]
      unfold handleEvent
      rw [if_neg (by decide :
        ¬ (EventName.unlink = EventName.addDir ∨ EventName.unlink = EventName.unlinkDir))]
      simp only [hty, hcol]
      rw [if_pos (unlink_after_set_guard st.collectionTypes _ _ _ em hem)]
      rw [removeEntry_setEntry_cancel st.collectionTypes _ _ _ hnd (by rw [hem]; exact hek)]
    · -- data classification
      have hlk : ∃ em, lookupA st.collectionTypes (jsonStringify collection) = some em := by
        have := hck
        simp [hasKeyA, Option.isSome_iff_exists] at this
        exact this
      obtain ⟨em, hem⟩ := hlk
      rw [hem, Option.getD_some] at hek
      have hadd : (handleEvent env st ⟨EventName.add, p⟩).state
          = { st with collectionTypes := (setEntry st.collectionTypes (jsonStringify collection)
                (jsonStringify (getDataEntryId p collection))
                EntryMetadata.data) } := by
        unfold handleEvent
        simp only [hty, hcol, hck, if_true]
        simp [hem, hek]
      rw [hadd]
      unfold handleEvent
      rw [if_neg (by decide :
        ¬ (EventName.unlink = EventName.addDir ∨ EventName.unlink = EventName.unlinkDir))]
      simp only [hty, hcol]
      rw [if_pos (unlink_after_set_guard st.collectionTypes _ _ _ em hem)]
      rw [removeEntry_setEntry_cancel st.collectionTypes _ _ _ hnd (by rw [hem]; exact hek)]

/-- Witness for the amended C2: with collection `blog` already tracked and
`a.json` untracked, add then unlink restores the state exactly. -/
theorem add_unlink_roundtrip_restores_witness :
    (handleEvent envC
      (handleEvent envC ⟨[("\"blog\"", [])], ObsStatus.unloaded, []⟩
        ⟨EventName.add, "blog/a.json"⟩).state
      ⟨EventName.unlink, "blog/a.json"⟩).state
    = ⟨[("\"blog\"", [])], ObsStatus.unloaded, []⟩ :=
  add_unlink_roundtrip_restores envC ⟨[("\"blog\"", [])], ObsStatus.unloaded, []⟩
    "blog/a.json" "\"blog\"" "\"a\"" (by decide) (by decide) (by decide) (by decide)

/-- Counterexample to C6: a plain file `add` event creates the `blog`
collection key in the Collection Map, so depth-one directory events are not
the only events that create collections. -/
theorem file_add_creates_collection_counterexample :
    (handleEvent envC st0 ⟨EventName.add, "blog/a.json"⟩).state.collectionTypes.map Prod.fst
      = ["\"blog\""]
    ∧ st0.collectionTypes.map Prod.fst = [] := by
  exact ⟨by decide, rfl⟩

/-- C6 (amended): file events never destroy a collection, and the only file
event that can create one is `add`, which appends at most the entry's own
collection key; `change` and `unlink` leave the set of collection keys
unchanged. (Depth-one directory events remain the only way a collection is
destroyed.) -/
theorem file_events_collection_keys (env : Env) (st : GenState) (ev : ContentEvent)
    (hfile : ev.name = EventName.add ∨ ev.name = EventName.change
      ∨ ev.name = EventName.unlink) :
    (handleEvent env st ev).state.collectionTypes.map Prod.fst
        = st.collectionTypes.map Prod.fst
    ∨ (ev.name = EventName.add ∧ ∃ k,
        (handleEvent env st ev).state.collectionTypes.map Prod.fst
          = st.collectionTypes.map Prod.fst ++ [k]) := by
  have hdir : ¬ (ev.name = EventName.addDir ∨ ev.name = EventName.unlinkDir) := by
    rcases hfile with h | h | h <;> simp [h]
  unfold handleEvent
  rw [if_neg hdir]
  cases hty : getEntryType env ev.entry
  case ignored => left; rfl
  case config =>
    cases env.loadResult with
    | ok o => cases o <;> (left; simp [obsSet])
    | error e => left; simp [obsSet]
  case unsupported =>
    by_cases h : ev.name = EventName.unlink
    · rw [if_pos h]; left; rfl
    · rw [if_neg h]; left; rfl
  case data =>
    cases hcol : getEntryCollectionName ev.entry with
    | none => left; rfl
    | some collection =>
      rcases hfile with h | h | h <;> simp only [h]
      · -- add
        by_cases hk : hasKeyA st.collectionTypes (jsonStringify collection) = true
        · simp only [hk, if_true]
          by_cases he : hasKeyA
              ((lookupA st.collectionTypes (jsonStringify collection)).getD [])
              (jsonStringify (getDataEntryId ev.entry collection)) = true
          · left; simp [he]
          · left
            simp only [he, Bool.false_eq_true, if_false]
            simp [setEntry_keys]
        · right
          refine ⟨by simp [h], jsonStringify collection, ?_⟩
          have hk' : hasKeyA st.collectionTypes (jsonStringify collection) = false := by
            revert hk; cases hasKeyA st.collectionTypes (jsonStringify collection) <;> simp
          simp only [hk', Bool.false_eq_true, if_false]
          by_cases he : hasKeyA
              ((lookupA (addCollection st.collectionTypes (jsonStringify collection))
                (jsonStringify collection)).getD [])
              (jsonStringify (getDataEntryId ev.entry collection)) = true
          · simp only [he, if_true]
            exact setA_keys_of_not_has st.collectionTypes (jsonStringify collection) [] hk'
          · simp only [he, Bool.false_eq_true, if_false]
            rw [setEntry_keys]
            exact setA_keys_of_not_has st.collectionTypes (jsonStringify collection) [] hk'
      · -- change
        left; trivial
      · -- unlink
        left
        by_cases hg : (hasKeyA st.collectionTypes (jsonStringify collection)
            && hasKeyA ((lookupA st.collectionTypes (jsonStringify collection)).getD [])
              (jsonStringify (getDataEntryId ev.entry collection))) = true
        · simp only [hg, if_true]
          exact removeEntry_keys st.collectionTypes _ _
        · simp only [hg, Bool.false_eq_true, if_false]
  case content =>
    cases hcol : getEntryCollectionName ev.entry with
    | none => left; rfl
    | some collection =>
      rcases hfile with h | h | h <;> simp only [h]
      · -- add
        by_cases hk : hasKeyA st.collectionTypes (jsonStringify collection) = true
        · simp only [hk, if_true]
          by_cases he : hasKeyA
              ((lookupA st.collectionTypes (jsonStringify collection)).getD [])
              (jsonStringify (contentEntryIdOf ev.entry collection)) = true
          · left; simp [he]
          · left
            simp only [he, Bool.false_eq_true, if_false]
            simp [setEntry_keys]
        · right
          refine ⟨by simp [h], jsonStringify collection, ?_⟩
          have hk' : hasKeyA st.collectionTypes (jsonStringify collection) = false := by
            revert hk; cases hasKeyA st.collectionTypes (jsonStringify collection) <;> simp
          simp only [hk', Bool.false_eq_true, if_false]
          by_cases he : hasKeyA
              ((lookupA (addCollection st.collectionTypes (jsonStringify collection))
                (jsonStringify collection)).getD [])
              (jsonStringify (contentEntryIdOf ev.entry collection)) = true
          · simp only [he, if_true]
            exact setA_keys_of_not_has st.collectionTypes (jsonStringify collection) [] hk'
          · simp only [he, Bool.false_eq_true, if_false]
            rw [setEntry_keys]
            exact setA_keys_of_not_has st.collectionTypes (jsonStringify collection) [] hk'
      · -- change
        left
        cases hm : (lookupA st.collectionTypes (jsonStringify collection)).bind
            (fun em => lookupA em (jsonStringify (contentEntryIdOf ev.entry collection))) with
        | none => simp [hm]
        | some md =>
          cases md with
          | content storedSlug =>
            simp only [hm]
            by_cases hs : storedSlug ≠ env.slugOf ev.entry
            · simp [hs, setEntry_keys]
            · simp [hs]
          | data => simp [hm]
      · -- unlink
        left
        by_cases hg : (hasKeyA st.collectionTypes (jsonStringify collection)
            && hasKeyA ((lookupA st.collectionTypes (jsonStringify collection)).getD [])
              (jsonStringify (contentEntryIdOf ev.entry collection))) = true
        · simp only [hg, if_true]
          exact removeEntry_keys st.collectionTypes _ _
        · simp only [hg, Bool.false_eq_true, if_false]

/-- Witness for the amended C6: an `unlink` file event leaves the collection
key set unchanged. -/
theorem file_events_collection_keys_witness :
    (handleEvent envC ⟨[("\"blog\"", [("\"a\"", EntryMetadata.data)])], ObsStatus.unloaded, []⟩
        ⟨EventName.unlink, "blog/a.json"⟩).state.collectionTypes.map Prod.fst
      = (⟨[("\"blog\"", [("\"a\"", EntryMetadata.data)])], ObsStatus.unloaded, []⟩
          : GenState).collectionTypes.map Prod.fst
    ∨ ((⟨EventName.unlink, "blog/a.json"⟩ : ContentEvent).name = EventName.add ∧ ∃ k,
        (handleEvent envC ⟨[("\"blog\"", [("\"a\"", EntryMetadata.data)])],
            ObsStatus.unloaded, []⟩
          ⟨EventName.unlink, "blog/a.json"⟩).state.collectionTypes.map Prod.fst
          = (⟨[("\"blog\"", [("\"a\"", EntryMetadata.data)])], ObsStatus.unloaded, []⟩
              : GenState).collectionTypes.map Prod.fst ++ [k]) :=
  file_events_collection_keys envC
    ⟨[("\"blog\"", [("\"a\"", EntryMetadata.data)])], ObsStatus.unloaded, []⟩
    ⟨EventName.unlink, "blog/a.json"⟩ (Or.inr (Or.inr rfl))

instance {α : Type} [DecidableEq α] (l1 l2 : List α) : Decidable (l1.Perm l2) :=
  decidable_of_iff (l1.isPerm l2 = true) List.isPerm_iff

instance (m1 m2 : CollectionTypes) : Decidable (MapEquiv m1 m2) := by
  unfold MapEquiv
  infer_instance

theorem lookupA_eq_of_perm {α : Type} {m1 m2 : List (String × α)} (h : m1.Perm m2) :
    (m1.map Prod.fst).Nodup → ∀ k, lookupA m1 k = lookupA m2 k := by
  induction h with
  | nil => intro _ k; rfl
  | cons x h ih =>
    intro hnd k
    simp only [List.map_cons, List.nodup_cons] at hnd
    obtain ⟨k0, v0⟩ := x
    by_cases hk : k0 = k
    · simp [lookupA, hk]
    · simp only [lookupA, hk, if_false]
      exact ih hnd.2 k
  | swap x y l =>
    intro hnd k
    obtain ⟨kx, vx⟩ := x
    obtain ⟨ky, vy⟩ := y
    simp only [List.map_cons, List.nodup_cons, List.mem_cons] at hnd
    by_cases h1 : ky = k
    · by_cases h2 : kx = k
      · exact absurd (h1.trans h2.symm) (fun he => hnd.1 (Or.inl he))
      · simp [lookupA, h1, h2]
    · simp [lookupA, h1]
  | trans h1 h2 ih1 ih2 =>
    intro hnd k
    have hnd2 := ((h1.map Prod.fst).nodup_iff).mp hnd
    exact (ih1 hnd k).trans (ih2 hnd2 k)

theorem map_congr_on {α β : Type} (f g : α → β) :
    ∀ l : List α, (∀ x ∈ l, f x = g x) → l.map f = l.map g := by
  intro l
  induction l with
  | nil => intro _; rfl
  | cons a l ih =>
    intro h
    simp only [List.map_cons]
    rw [h a (by simp), ih (fun x hx => h x (by simp [hx]))]

theorem collectionBlock_congr (cfg : Option ContentConfig) {m1 m2 : CollectionTypes}
    (ck : String) (hperm : ((lookupA m1 ck).getD []).Perm ((lookupA m2 ck).getD []))
    (hnd : ((((lookupA m1 ck).getD []).map Prod.fst)).Nodup) :
    collectionBlock cfg m1 ck = collectionBlock cfg m2 ck := by
  simp only [collectionBlock]
  have hkeysE : sortedEntryKeys ((lookupA m1 ck).getD [])
      = sortedEntryKeys ((lookupA m2 ck).getD []) := by
    apply List.eq_of_perm_of_sorted
      ((List.perm_insertionSort jsLe _).trans
        ((hperm.map Prod.fst).trans (List.perm_insertionSort jsLe _).symm))
      (List.sorted_insertionSort jsLe _) (List.sorted_insertionSort jsLe _)
  rw [hkeysE]
  have hlookE := lookupA_eq_of_perm hperm hnd
  have hmap : List.map (fun ek =>
        match lookupA ((lookupA m1 ck).getD []) ek with
        | some md => entryLine cfg ck ek md
        | none => "") (sortedEntryKeys ((lookupA m2 ck).getD []))
      = List.map (fun ek =>
        match lookupA ((lookupA m2 ck).getD []) ek with
        | some md => entryLine cfg ck ek md
        | none => "") (sortedEntryKeys ((lookupA m2 ck).getD [])) := by
    apply map_congr_on
    intro ek _
    rw [hlookE ek]
  rw [hmap]

theorem contentTypesStrOf_congr (cfg : Option ContentConfig) {m1 m2 : CollectionTypes}
    (h : MapEquiv m1 m2) :
    contentTypesStrOf cfg m1 = contentTypesStrOf cfg m2 := by
  obtain ⟨hnd1, hnd2, hperm, hlook⟩ := h
  have hkeys : sortedCollectionKeys m1 = sortedCollectionKeys m2 := by
    apply List.eq_of_perm_of_sorted
      ((List.perm_insertionSort jsLe _).trans
        (hperm.trans (List.perm_insertionSort jsLe _).symm))
      (List.sorted_insertionSort jsLe _) (List.sorted_insertionSort jsLe _)
  unfold contentTypesStrOf
  rw [hkeys]
  congr 1
  apply map_congr_on
  intro ck hck
  have hck1 : ck ∈ m1.map Prod.fst := by
    have hmem2 : ck ∈ m2.map Prod.fst := by
      have hsub := (List.perm_insertionSort jsLe (List.map Prod.fst m2)).subset
      unfold sortedCollectionKeys at hck
      exact hsub hck
    exact hperm.symm.subset hmem2
  obtain ⟨hpE, hndE⟩ := hlook ck hck1
  exact collectionBlock_congr cfg ck hpE hndE

/-- The Collection Map obtained by depth-one `addDir` events for the
directory names `"\n"` (a newline) and `"!"`. -/
def demoNewlineBangMap : CollectionTypes :=
  (handleEvent envC (handleEvent envC st0 ⟨EventName.addDir, "\n"⟩).state
    ⟨EventName.addDir, "!"⟩).state.collectionTypes

/-- Counterexample to C4: the writer sorts the stored, JSON-stringified keys,
not the collection names. For the collections named `"\n"` and `"!"` the
stored keys are `"\"\\n\""` and `"\"!\""`, and sorting them puts the `"!"`
collection first (backslash sorts after the exclamation mark), although in
lexicographic name order the newline-named collection comes first — so the
emitted order is not lexicographic name order. -/
theorem manifest_name_order_counterexample :
    demoNewlineBangMap.map Prod.fst = [jsonStringify "\n", jsonStringify "!"]
    ∧ sortedCollectionKeys demoNewlineBangMap = [jsonStringify "!", jsonStringify "\n"]
    ∧ lexLe "\n".data "!".data = true
    ∧ ¬ lexLe "!".data "\n".data = true := by
  refine ⟨by decide, by decide, by decide, by decide⟩

/-- C4 (amended): the manifest writer emits collections in sorted order of
their stored (JSON-stringified) keys — not of the raw collection names: the
quoting and escaping of the stored keys can reorder them relative to name
order — and entries in sorted order of their stored entry keys; consequently
any two invocations whose Collection Maps carry the same bindings (regardless
of JS Record insertion order) and whose remaining inputs agree produce
byte-identical output text. -/
theorem writeContentFiles_deterministic (w1 w2 : WriteInputs)
    (hm : MapEquiv w1.contentTypes w2.contentTypes)
    (ht : w1.typeTemplateContent = w2.typeTemplateContent)
    (hmod : w1.contentModuleTypesList = w2.contentModuleTypesList)
    (hc : w1.contentConfig = w2.contentConfig)
    (hp : w1.configPathRelativeToCacheDir = w2.configPathRelativeToCacheDir) :
    List.Sorted jsLe (sortedCollectionKeys w1.contentTypes)
    ∧ (sortedCollectionKeys w1.contentTypes).Perm (w1.contentTypes.map Prod.fst)
    ∧ (∀ ck, List.Sorted jsLe (sortedEntryKeys ((lookupA w1.contentTypes ck).getD [])))
    ∧ writeContentFiles w1 = writeContentFiles w2 := by
  refine ⟨List.sorted_insertionSort jsLe _, List.perm_insertionSort jsLe _,
    fun ck => List.sorted_insertionSort jsLe _, ?_⟩
  unfold writeContentFiles
  rw [contentTypesStrOf_congr w1.contentConfig hm, ht, hmod, hc, hp]

/-- First argument for the determinism witness. -/
def wC4a : WriteInputs :=
  ⟨[("\"b\"", [("\"y\"", EntryMetadata.data), ("\"x\"", EntryMetadata.data)]), ("\"a\"", [])],
    "// @@ENTRY_MAP@@\n\x27@@CONTENT_CONFIG_TYPE@@\x27", [], none, "../config"⟩

/-- Second argument for the determinism witness: same bindings, different
insertion order. -/
def wC4b : WriteInputs :=
  ⟨[("\"a\"", []), ("\"b\"", [("\"x\"", EntryMetadata.data), ("\"y\"", EntryMetadata.data)])],
    "// @@ENTRY_MAP@@\n\x27@@CONTENT_CONFIG_TYPE@@\x27", [], none, "../config"⟩

/-- Witness for the amended C4: two insertion orders of the same bindings
produce byte-identical manifests. -/
theorem writeContentFiles_deterministic_witness :
    writeContentFiles wC4a = writeContentFiles wC4b :=
  (writeContentFiles_deterministic wC4a wC4b (by decide) rfl rfl rfl rfl).2.2.2

theorem insertSet_nodup (s : List String) (x : String) (h : s.Nodup) :
    (insertSet s x).Nodup := by
  unfold insertSet
  by_cases hx : x ∈ s
  · rw [if_pos hx]
    exact h
  · rw [if_neg hx]
    simp [List.nodup_append, h, hx]

theorem foldl_preserves {α β : Type} (P : β → Prop) (f : β → α → β)
    (hf : ∀ b a, P b → P (f b a)) :
    ∀ (l : List α) (b : β), P b → P (l.foldl f b) := by
  intro l
  induction l with
  | nil => intro b h; exact h
  | cons a l ih =>
    intro b h
    exact ih (f b a) (hf b a h)

theorem addAllSet_nodup (s : List String) (xs : List String) (h : s.Nodup) :
    (addAllSet s xs).Nodup :=
  foldl_preserves List.Nodup insertSet (fun b a hb => insertSet_nodup b a hb) xs s h

theorem pageStep_nodup (env : BuildEnv) (m : String) :
    ∀ (acc2 : List String × List String) (page : String),
      acc2.1.Nodup ∧ acc2.2.Nodup →
      (pageStep env m acc2 page).1.Nodup ∧ (pageStep env m acc2 page).2.Nodup := by
  intro acc2 page h
  unfold pageStep
  cases env.pageData page with
  | none => exact h
  | some pd =>
    cases hps : pd.propagatedStyles m <;> cases hsc : pd.propagatedScripts m <;>
      simp only [hps, hsc] <;>
      exact ⟨by first | exact h.1 | exact addAllSet_nodup _ _ h.1,
             by first | exact h.2 | exact addAllSet_nodup _ _ h.2⟩

theorem collectStep_nodup (env : BuildEnv) :
    ∀ (acc : List String × List String) (m : String),
      acc.1.Nodup ∧ acc.2.Nodup →
      (collectStep env acc m).1.Nodup ∧ (collectStep env acc m).2.Nodup := by
  intro acc m h
  exact foldl_preserves (fun a => a.1.Nodup ∧ a.2.Nodup) (pageStep env m)
    (pageStep_nodup env m) (env.pagesOf m) acc h

theorem collectChunkAssets_nodup (env : BuildEnv) (moduleIds : List String) :
    (collectChunkAssets env moduleIds).1.Nodup
    ∧ (collectChunkAssets env moduleIds).2.Nodup :=
  foldl_preserves (fun a => a.1.Nodup ∧ a.2.Nodup) (collectStep env)
    (collectStep_nodup env) moduleIds ([], []) ⟨List.nodup_nil, List.nodup_nil⟩

theorem fileNameStep_nodup (fileName : String) (entryScripts : List String) :
    ∀ (acc3 : List String) (m : String), acc3.Nodup →
      (fileNameStep fileName entryScripts acc3 m).Nodup := by
  intro acc3 m h
  unfold fileNameStep
  by_cases hm : entryScripts.contains m = true
  · rw [if_pos hm]
    exact insertSet_nodup acc3 fileName h
  · rw [if_neg hm]
    exact h

theorem clientChunkStep_nodup (entryScripts : List String) :
    ∀ (acc2 : List String) (clientChunk : OutputChunk), acc2.Nodup →
      (clientChunkStep entryScripts acc2 clientChunk).Nodup := by
  intro acc2 clientChunk h
  unfold clientChunkStep
  by_cases hc : clientChunk.isChunk = false
  · rw [if_pos hc]
    exact h
  · rw [if_neg hc]
    exact foldl_preserves List.Nodup (fileNameStep clientChunk.fileName entryScripts)
      (fileNameStep_nodup clientChunk.fileName entryScripts) clientChunk.modules acc2 h

theorem collectEntryFileNames_nodup (clientOutputs : List (List OutputChunk))
    (entryScripts : List String) : (collectEntryFileNames clientOutputs entryScripts).Nodup := by
  unfold collectEntryFileNames
  exact foldl_preserves List.Nodup _
    (fun b a hb => foldl_preserves List.Nodup (clientChunkStep entryScripts)
      (clientChunkStep_nodup entryScripts) a b hb)
    clientOutputs [] List.nodup_nil

/-- C9: the per-chunk style and script accumulators (and the resolved client
file-name set) are duplicate-free sets; a chunk whose accumulators stay empty
is left with its code untouched (placeholders un-replaced); and a non-empty
accumulator replaces exactly the first occurrence of its JSON-quoted
placeholder token with the JSON array built from the deduplicated set. -/
theorem chunk_assets_dedup_single_replace (env : BuildEnv) (assetsPrefix : Option String)
    (base : String) (clientOutputs : List (List OutputChunk)) (chunk : OutputChunk) :
    (collectChunkAssets env chunk.modules).1.Nodup
    ∧ (collectChunkAssets env chunk.modules).2.Nodup
    ∧ (collectEntryFileNames clientOutputs (collectChunkAssets env chunk.modules).2).Nodup
    ∧ ((collectChunkAssets env chunk.modules).1 = []
        ∧ (collectChunkAssets env chunk.modules).2 = [] →
        processChunk env assetsPrefix base clientOutputs chunk = chunk.code)
    ∧ (∀ i, (collectChunkAssets env chunk.modules).1 ≠ []
        ∧ (collectChunkAssets env chunk.modules).2 = []
        ∧ chunk.isChunk = true
        ∧ containsTok chunk.code LINKS_PLACEHOLDER = true
        ∧ firstOccL (jsonStringify LINKS_PLACEHOLDER).data chunk.code.data = some i →
        (processChunk env assetsPrefix base clientOutputs chunk).data
          = chunk.code.data.take i
            ++ (jsonStringArray ((collectChunkAssets env chunk.modules).1.map
                (prependBase assetsPrefix base))).data
            ++ chunk.code.data.drop (i + (jsonStringify LINKS_PLACEHOLDER).data.length))
    ∧ (∀ i, (collectChunkAssets env chunk.modules).1 = []
        ∧ (collectChunkAssets env chunk.modules).2 ≠ []
        ∧ chunk.isChunk = true
        ∧ containsTok chunk.code SCRIPTS_PLACEHOLDER = true
        ∧ firstOccL (jsonStringify SCRIPTS_PLACEHOLDER).data chunk.code.data = some i →
        (processChunk env assetsPrefix base clientOutputs chunk).data
          = chunk.code.data.take i
            ++ (scriptsJson ((collectEntryFileNames clientOutputs
                  (collectChunkAssets env chunk.modules).2).map
                (prependBase assetsPrefix base))).data
            ++ chunk.code.data.drop
                (i + (jsonStringify SCRIPTS_PLACEHOLDER).data.length)) := by
  refine ⟨(collectChunkAssets_nodup env chunk.modules).1,
    (collectChunkAssets_nodup env chunk.modules).2,
    collectEntryFileNames_nodup clientOutputs _, ?_, ?_, ?_⟩
  · rintro ⟨h1, h2⟩
    simp only [processChunk]
    by_cases hg : (chunk.isChunk
        && (containsTok chunk.code LINKS_PLACEHOLDER
            || containsTok chunk.code SCRIPTS_PLACEHOLDER)) = true
    · rw [if_pos hg]
      simp [h1, h2]
    · rw [if_neg hg]
  · rintro i ⟨h1, h2, hik, hct, hocc⟩
    simp only [processChunk]
    rw [if_pos (by simp [hik, hct])]
    rw [if_neg (by simp [h2])]
    rw [if_pos (by simpa [List.length_eq_zero] using h1)]
    unfold replaceFirst
    exact replaceFirstL_of_firstOcc (jsonStringify LINKS_PLACEHOLDER).data _
      (by decide) chunk.code.data i hocc
  · rintro i ⟨h1, h2, hik, hct, hocc⟩
    simp only [processChunk]
    rw [if_pos (by simp [hik, hct])]
    rw [if_pos (by simpa [List.length_eq_zero] using h2)]
    rw [if_neg (by simp [h1])]
    unfold replaceFirst
    exact replaceFirstL_of_firstOcc (jsonStringify SCRIPTS_PLACEHOLDER).data _
      (by decide) chunk.code.data i hocc

/-- The build collaborators for the C9 witness: two modules both owned by the
same page, which propagates the same single stylesheet for each of them. -/
def envB : BuildEnv :=
  ⟨fun _ => ["page"],
   fun p => if p = "page" then
      some ⟨fun _ => some ["/a.css"], fun _ => none⟩
    else none⟩

/-- The chunk for the C9 witness: its code holds the quoted links placeholder
at index 1. -/
def chunkB : OutputChunk :=
  ⟨true, "x" ++ jsonStringify LINKS_PLACEHOLDER ++ "y", ["M1", "M2"], "c.js"⟩

/-- Witness for C9: the stylesheet reachable twice (through `M1` and `M2`)
is accumulated once, and the quoted placeholder is replaced exactly once with
the singleton JSON array. -/
theorem chunk_assets_dedup_single_replace_witness :
    (processChunk envB none "" [] chunkB).data
      = chunkB.code.data.take 1
        ++ (jsonStringArray ((collectChunkAssets envB chunkB.modules).1.map
            (prependBase none ""))).data
        ++ chunkB.code.data.drop (1 + (jsonStringify LINKS_PLACEHOLDER).data.length) :=
  (chunk_assets_dedup_single_replace envB none "" [] chunkB).2.2.2.2.1 1
    ⟨by decide, by decide, by decide, by decide, by decide⟩

end Astro
